import Mathlib

/-!
# Verification of the virtualized paragraph renderer

Shallow embedding of the core of the incremental virtualized text-window
renderer (the Vue single-file component rendering `paragraphs` inside a
scrollable viewport).  Pixel quantities are modelled as `ℕ` (heights and
offsets are sums of positive integer constants in the source), while the
scroll position and the viewport height, which the DOM may report as
arbitrary (possibly negative) numbers, are modelled as `ℤ`.
-/

set_option maxRecDepth 40000

namespace VirtualText

/-- The constant `lineHeightPx = 28`. -/
def lineHeightPx : ℕ := 28

/-- The constant `paragraphGap = 16`. -/
def paragraphGap : ℕ := 16

/-- The constant `overscan = 6`. -/
def overscan : ℕ := 6

/-- The constant `MIN_VIRTUAL_PARAGRAPHS = 120`. -/
def MIN_VIRTUAL_PARAGRAPHS : ℕ := 120

/-- The constant `MIN_VIRTUAL_WIDTH = 900`. -/
def MIN_VIRTUAL_WIDTH : ℕ := 900

/-- The function `estimateHeight` from the component:
```
const width = containerWidth.value || 640;
const charsPerLine = Math.max(12, Math.floor(width / 14));
const lines = Math.max(1, Math.ceil(text.length / charsPerLine));
return lines * lineHeightPx + paragraphGap;
```
`containerWidth` is a DOM `clientWidth`, hence a natural number; the JS
`|| 640` fallback fires exactly when it is `0`.  `Math.ceil (a / b)` for
naturals with `b > 0` is `(a + b - 1) / b`. -/
def estimateHeight (text : String) (containerWidth : ℕ) : ℕ :=
  let width := if containerWidth = 0 then 640 else containerWidth
  let charsPerLine := max 12 (width / 14)
  let lines := max 1 ((text.length + charsPerLine - 1) / charsPerLine)
  lines * lineHeightPx + paragraphGap

/-- The height formula exactly as the spec words it, as a function of the
text length and the viewport width: `charsPerLine = max(12, floor(width/14))`,
`lines = max(1, ceil(length / charsPerLine))`,
`height = lines * lineHeightPx + paragraphGap`.  Used to compare the code
against the spec's words. -/
def specHeightFormula (len width : ℕ) : ℕ :=
  let charsPerLine := max 12 (width / 14)
  let lines := max 1 ((len + charsPerLine - 1) / charsPerLine)
  lines * lineHeightPx + paragraphGap

/-- The derived table `heights = computed(() => props.paragraphs.map(estimateHeight));` -/
def heights (paragraphs : List String) (containerWidth : ℕ) : List ℕ :=
  paragraphs.map (fun text => estimateHeight text containerWidth)

/-- The mode switch `useVirtualization`: `paragraphs.length >= MIN_VIRTUAL_PARAGRAPHS &&
containerWidth >= MIN_VIRTUAL_WIDTH`. -/
def useVirtualization (paragraphs : List String) (containerWidth : ℕ) : Bool :=
  decide (MIN_VIRTUAL_PARAGRAPHS ≤ paragraphs.length) &&
  decide (MIN_VIRTUAL_WIDTH ≤ containerWidth)

/-- The accumulator loop of `offsets`:
```
let acc = 0;
for (let i = 0; i < props.paragraphs.length; i += 1) {
  result[i] = acc;
  acc += heights.value[i] ?? 0;
}
```
`result` has the same length as `heights` (a `map` over the same list), so
the `?? 0` never fires; the loop writes the running prefix sum. -/
def offsetsGo (acc : ℕ) : List ℕ → List ℕ
  | [] => []
  | h :: t => acc :: offsetsGo (acc + h) t

/-- The offset table built from a height table (the loop body of `offsets`). -/
def buildOffsets (hs : List ℕ) : List ℕ :=
  offsetsGo 0 hs

/-- The derived table `offsets = computed(...)`: empty unless virtualization is active,
otherwise the prefix sums of the height table. -/
def offsets (paragraphs : List String) (containerWidth : ℕ) : List ℕ :=
  if useVirtualization paragraphs containerWidth = false then []
  else buildOffsets (heights paragraphs containerWidth)

/-- The derived value `totalHeight = computed(...)`:
returns `0` unless virtualization is active; `0` when the offset table is
empty (`last < 0`); otherwise `offsets[last] + heights[last]`. -/
def totalHeight (paragraphs : List String) (containerWidth : ℕ) : ℕ :=
  if useVirtualization paragraphs containerWidth = false then 0
  else
    let offs := offsets paragraphs containerWidth
    let hs := heights paragraphs containerWidth
    if offs.length = 0 then 0
    else offs.getD (offs.length - 1) 0 + hs.getD (offs.length - 1) 0

/-- The `while (lo <= hi)` loop of `findStartIndex`.  `lo`/`hi` are modelled
as integers because the initial `hi = offs.length - 1` is `-1` on an empty
table.  `Math.floor((lo + hi) / 2)` is integer floor division, which for the
divisor `2` is Lean's `Int` division. -/
def findGo (offs : List ℕ) (scroll : ℤ) (lo hi : ℤ) (ans : ℕ) : ℕ :=
  if h : lo ≤ hi then
    let mid := (lo + hi) / 2
    if ((offs.getD mid.toNat 0 : ℤ)) ≤ scroll then
      findGo offs scroll (mid + 1) hi mid.toNat
    else
      findGo offs scroll lo (mid - 1) ans
  else ans
termination_by (hi + 1 - lo).toNat
decreasing_by
  all_goals omega

/-- The search `findStartIndex(scroll)`: binary search over the offset table for the
rightmost index whose offset is `<= scroll`; `ans` starts at `0`. -/
def findStartIndex (offs : List ℕ) (scroll : ℤ) : ℕ :=
  findGo offs scroll 0 ((offs.length : ℤ) - 1) 0

/-- The forward walk of `visibleRange`:
```
while (end < offsets.value.length &&
       (offsets.value[end] ?? 0) < maxScroll + overscan * lineHeightPx) {
  end += 1;
}
```
`limit` is `maxScroll + overscan * lineHeightPx`. -/
def windowEnd (offs : List ℕ) (limit : ℤ) (e : ℕ) : ℕ :=
  if h : e < offs.length ∧ ((offs.getD e 0 : ℤ)) < limit then
    windowEnd offs limit (e + 1)
  else e
termination_by offs.length - e
decreasing_by
  omega

/-- The virtualized branch of `visibleRange`:
```
const start = Math.max(0, findStartIndex(scrollTop.value) - overscan);
const maxScroll = scrollTop.value + viewportHeight.value;
let end = start;
while (...) end += 1;
return { start, end: Math.min(offsets.value.length, end + overscan) };
```
`Math.max(0, n - overscan)` on a natural `n` is truncated subtraction. -/
def computeWindow (offs : List ℕ) (scrollTop viewportHeight : ℤ) : ℕ × ℕ :=
  let start := findStartIndex offs scrollTop - overscan
  let maxScroll := scrollTop + viewportHeight
  let e := windowEnd offs (maxScroll + (overscan * lineHeightPx : ℕ)) start
  (start, min offs.length (e + overscan))

/-- The window `visibleRange = computed(...)`: the full range when virtualization
is off, otherwise the windowed range over the component's offset table. -/
def visibleRange (paragraphs : List String) (containerWidth : ℕ)
    (scrollTop viewportHeight : ℤ) : ℕ × ℕ :=
  if useVirtualization paragraphs containerWidth = false then
    (0, paragraphs.length)
  else
    computeWindow (offsets paragraphs containerWidth) scrollTop viewportHeight

/-! ### Properties of the offset table -/

lemma offsetsGo_length (acc : ℕ) (hs : List ℕ) :
    (offsetsGo acc hs).length = hs.length := by
  induction hs generalizing acc with
  | nil => rfl
  | cons hd t ih => simp [offsetsGo, ih]

lemma offsetsGo_getD (acc : ℕ) (hs : List ℕ) (i : ℕ) (h : i < hs.length) :
    (offsetsGo acc hs).getD i 0 = acc + (hs.take i).sum := by
  induction hs generalizing acc i with
  | nil => simp at h
  | cons hd t ih =>
    cases i with
    | zero => simp [offsetsGo]
    | succ n =>
      have hn : n < t.length := by simpa using h
      have := ih (acc + hd) n hn
      simp only [offsetsGo, List.getD_cons_succ, this, List.take_succ_cons,
        List.sum_cons]
      omega

lemma buildOffsets_length (hs : List ℕ) : (buildOffsets hs).length = hs.length :=
  offsetsGo_length 0 hs

lemma buildOffsets_getD (hs : List ℕ) (i : ℕ) (h : i < hs.length) :
    (buildOffsets hs).getD i 0 = (hs.take i).sum := by
  simpa using offsetsGo_getD 0 hs i h

lemma buildOffsets_head (hs : List ℕ) (h : 0 < hs.length) :
    (buildOffsets hs).getD 0 0 = 0 := by
  rw [buildOffsets_getD hs 0 h]
  simp

lemma buildOffsets_succ (hs : List ℕ) (i : ℕ) (h : i + 1 < hs.length) :
    (buildOffsets hs).getD (i + 1) 0 = (buildOffsets hs).getD i 0 + hs.getD i 0 := by
  have hi : i < hs.length := Nat.lt_of_succ_lt h
  rw [buildOffsets_getD hs (i + 1) h, buildOffsets_getD hs i hi]
  rw [List.take_succ, List.sum_append]
  congr 1
  rw [List.getElem?_eq_getElem hi]
  simp [List.getD_eq_getElem?_getD, List.getElem?_eq_getElem hi]

lemma buildOffsets_mono (hs : List ℕ) {i j : ℕ} (hij : i ≤ j) (hj : j < hs.length) :
    (buildOffsets hs).getD i 0 ≤ (buildOffsets hs).getD j 0 := by
  have hi : i < hs.length := lt_of_le_of_lt hij hj
  rw [buildOffsets_getD hs i hi, buildOffsets_getD hs j hj]
  have hsplit : hs.take j = hs.take i ++ (hs.drop i).take (j - i) := by
    conv_lhs => rw [show j = i + (j - i) by omega]
    rw [List.take_add]
  rw [hsplit, List.sum_append]
  omega

/-! ### Properties of the binary search -/

lemma findGo_lt_length (offs : List ℕ) (scroll : ℤ) :
    ∀ (lo hi : ℤ) (ans : ℕ), hi < (offs.length : ℤ) → ans < offs.length →
      findGo offs scroll lo hi ans < offs.length := by
  intro lo hi ans
  induction lo, hi, ans using findGo.induct offs scroll with
  | case1 lo hi ans h mid hval ih =>
    intro hhi hans
    have hmid : mid = (lo + hi) / 2 := rfl
    clear_value mid
    subst hmid
    rw [findGo.eq_def]
    simp only [dif_pos h, if_pos hval]
    exact ih hhi (by omega)
  | case2 lo hi ans h mid hval ih =>
    intro hhi hans
    have hmid : mid = (lo + hi) / 2 := rfl
    clear_value mid
    subst hmid
    rw [findGo.eq_def]
    simp only [dif_pos h, if_neg hval]
    exact ih (by omega) hans
  | case3 lo hi ans h =>
    intro hhi hans
    rw [findGo.eq_def]
    simp only [dif_neg h]
    exact hans

lemma findStartIndex_lt_length (offs : List ℕ) (scroll : ℤ) (h : offs ≠ []) :
    findStartIndex offs scroll < offs.length := by
  have hlen : 0 < offs.length := List.length_pos.mpr h
  exact findGo_lt_length offs scroll 0 ((offs.length : ℤ) - 1) 0 (by omega) hlen

lemma findStartIndex_nil (scroll : ℤ) : findStartIndex [] scroll = 0 := by
  rw [findStartIndex, findGo.eq_def]
  norm_num

lemma findGo_spec (offs : List ℕ) (scroll : ℤ)
    (hmono : ∀ i j : ℕ, i ≤ j → j < offs.length → offs.getD i 0 ≤ offs.getD j 0) :
    ∀ (lo hi : ℤ) (ans : ℕ),
      0 ≤ lo → hi < (offs.length : ℤ) →
      (∀ j : ℕ, hi < (j : ℤ) → j < offs.length → scroll < (offs.getD j 0 : ℤ)) →
      (∀ j : ℕ, (j : ℤ) < lo → j < offs.length → (offs.getD j 0 : ℤ) ≤ scroll →
        (offs.getD ans 0 : ℤ) ≤ scroll ∧ j ≤ ans ∧ ans < offs.length) →
      (ans = 0 ∨ (ans < offs.length ∧ (offs.getD ans 0 : ℤ) ≤ scroll)) →
      ((∀ j : ℕ, j < offs.length → (offs.getD j 0 : ℤ) ≤ scroll →
          (offs.getD (findGo offs scroll lo hi ans) 0 : ℤ) ≤ scroll ∧
          j ≤ findGo offs scroll lo hi ans ∧
          findGo offs scroll lo hi ans < offs.length) ∧
        (findGo offs scroll lo hi ans = 0 ∨
          (findGo offs scroll lo hi ans < offs.length ∧
            (offs.getD (findGo offs scroll lo hi ans) 0 : ℤ) ≤ scroll))) := by
  intro lo hi ans
  induction lo, hi, ans using findGo.induct offs scroll with
  | case1 lo hi ans h mid hval ih =>
    intro hlo hhi hup hdown hans0
    have hmid : mid = (lo + hi) / 2 := rfl
    clear_value mid
    subst hmid
    rw [findGo.eq_def]
    simp only [dif_pos h, if_pos hval]
    refine ih (by omega) hhi hup ?_ ?_
    · intro j hj hjlen hjle
      refine ⟨hval, by omega, by omega⟩
    · exact Or.inr ⟨by omega, hval⟩
  | case2 lo hi ans h mid hval ih =>
    intro hlo hhi hup hdown hans0
    have hmid : mid = (lo + hi) / 2 := rfl
    clear_value mid
    subst hmid
    rw [findGo.eq_def]
    simp only [dif_pos h, if_neg hval]
    refine ih hlo (by omega) ?_ hdown hans0
    intro j hj hjlen
    by_cases hcase : hi < (j : ℤ)
    · exact hup j hcase hjlen
    · have hm : ((lo + hi) / 2).toNat ≤ j := by omega
      have := hmono ((lo + hi) / 2).toNat j hm hjlen
      have hv : scroll < (offs.getD ((lo + hi) / 2).toNat 0 : ℤ) := by omega
      have : (offs.getD ((lo + hi) / 2).toNat 0 : ℤ) ≤ (offs.getD j 0 : ℤ) := by
        exact_mod_cast this
      omega
  | case3 lo hi ans h =>
    intro hlo hhi hup hdown hans0
    rw [findGo.eq_def]
    simp only [dif_neg h]
    refine ⟨?_, hans0⟩
    intro j hjlen hjle
    have hjhi : (j : ℤ) ≤ hi := by
      by_contra hcon
      have := hup j (by omega) hjlen
      omega
    exact hdown j (by omega) hjlen hjle

lemma findStartIndex_spec (offs : List ℕ) (scroll : ℤ)
    (hmono : ∀ i j : ℕ, i ≤ j → j < offs.length → offs.getD i 0 ≤ offs.getD j 0) :
    (∀ j : ℕ, j < offs.length → (offs.getD j 0 : ℤ) ≤ scroll →
        (offs.getD (findStartIndex offs scroll) 0 : ℤ) ≤ scroll ∧
        j ≤ findStartIndex offs scroll ∧
        findStartIndex offs scroll < offs.length) ∧
    (findStartIndex offs scroll = 0 ∨
      (findStartIndex offs scroll < offs.length ∧
        (offs.getD (findStartIndex offs scroll) 0 : ℤ) ≤ scroll)) := by
  refine findGo_spec offs scroll hmono 0 ((offs.length : ℤ) - 1) 0 le_rfl (by omega)
    ?_ ?_ (Or.inl rfl)
  · intro j hj hjlen
    omega
  · intro j hj
    omega

/-! ### Properties of the forward walk -/

lemma windowEnd_ge (offs : List ℕ) (limit : ℤ) : ∀ e, e ≤ windowEnd offs limit e := by
  intro e
  induction e using windowEnd.induct offs limit with
  | case1 e h ih =>
    rw [windowEnd.eq_def]
    simp only [dif_pos h]
    omega
  | case2 e h =>
    rw [windowEnd.eq_def]
    simp only [dif_neg h]
    exact le_rfl

lemma windowEnd_le_length (offs : List ℕ) (limit : ℤ) :
    ∀ e, e ≤ offs.length → windowEnd offs limit e ≤ offs.length := by
  intro e
  induction e using windowEnd.induct offs limit with
  | case1 e h ih =>
    intro he
    rw [windowEnd.eq_def]
    simp only [dif_pos h]
    exact ih (by omega)
  | case2 e h =>
    intro he
    rw [windowEnd.eq_def]
    simp only [dif_neg h]
    exact he

lemma windowEnd_gt (offs : List ℕ) (limit : ℤ)
    (hmono : ∀ i j : ℕ, i ≤ j → j < offs.length → offs.getD i 0 ≤ offs.getD j 0) :
    ∀ e, ∀ j : ℕ, e ≤ j → j < offs.length → (offs.getD j 0 : ℤ) < limit →
      j < windowEnd offs limit e := by
  intro e
  induction e using windowEnd.induct offs limit with
  | case1 e h ih =>
    intro j hej hjlen hjlim
    rw [windowEnd.eq_def]
    simp only [dif_pos h]
    rcases Nat.eq_or_lt_of_le hej with heq | hlt
    · subst heq
      exact lt_of_lt_of_le (Nat.lt_succ_self e) (windowEnd_ge offs limit (e + 1))
    · exact ih j hlt hjlen hjlim
  | case2 e h =>
    intro j hej hjlen hjlim
    exfalso
    apply h
    refine ⟨lt_of_le_of_lt hej hjlen, ?_⟩
    have := hmono e j hej hjlen
    have hcast : (offs.getD e 0 : ℤ) ≤ (offs.getD j 0 : ℤ) := by exact_mod_cast this
    omega

/-! ### Glue lemmas -/

lemma heights_length (ps : List String) (w : ℕ) : (heights ps w).length = ps.length := by
  simp [heights]

lemma buildOffsets_monoD (hs : List ℕ) :
    ∀ i j : ℕ, i ≤ j → j < (buildOffsets hs).length →
      (buildOffsets hs).getD i 0 ≤ (buildOffsets hs).getD j 0 := by
  intro i j hij hj
  exact buildOffsets_mono hs hij (by rwa [buildOffsets_length] at hj)

lemma pairwise_getD_mono (offs : List ℕ) (hp : List.Pairwise (· ≤ ·) offs) :
    ∀ i j : ℕ, i ≤ j → j < offs.length → offs.getD i 0 ≤ offs.getD j 0 := by
  intro i j hij hj
  have hi : i < offs.length := lt_of_le_of_lt hij hj
  rcases Nat.eq_or_lt_of_le hij with rfl | hlt
  · exact le_rfl
  · rw [List.getD_eq_getElem offs 0 hi, List.getD_eq_getElem offs 0 hj]
    exact List.pairwise_iff_getElem.mp hp i j hi hj hlt

lemma offsets_eq_buildOffsets (ps : List String) (w : ℕ)
    (hv : useVirtualization ps w = true) :
    offsets ps w = buildOffsets (heights ps w) := by
  simp [offsets, hv]

lemma sum_take_succ_getD (hs : List ℕ) (i : ℕ) (h : i < hs.length) :
    (hs.take (i + 1)).sum = (hs.take i).sum + hs.getD i 0 := by
  rw [List.take_succ, List.sum_append]
  congr 1
  rw [List.getElem?_eq_getElem h]
  simp [List.getD_eq_getElem?_getD, List.getElem?_eq_getElem h]

lemma totalHeight_eq_sum (ps : List String) (w : ℕ)
    (hv : useVirtualization ps w = true) :
    totalHeight ps w = (heights ps w).sum := by
  have hcount : MIN_VIRTUAL_PARAGRAPHS ≤ ps.length := by
    have := hv
    simp [useVirtualization] at this
    exact this.1
  have hpos : 0 < ps.length := lt_of_lt_of_le (by norm_num [MIN_VIRTUAL_PARAGRAPHS]) hcount
  have hlh : (heights ps w).length = ps.length := heights_length ps w
  have hoff : offsets ps w = buildOffsets (heights ps w) := offsets_eq_buildOffsets ps w hv
  have holen : (offsets ps w).length = ps.length := by
    rw [hoff, buildOffsets_length, hlh]
  rw [totalHeight, if_neg (by simp [hv])]
  simp only [holen]
  rw [if_neg (by omega)]
  have hlt : ps.length - 1 < (heights ps w).length := by omega
  rw [hoff, buildOffsets_getD (heights ps w) (ps.length - 1) (by omega)]
  rw [← sum_take_succ_getD (heights ps w) (ps.length - 1) (by omega)]
  rw [show ps.length - 1 + 1 = (heights ps w).length by omega, List.take_length]

lemma ceilDiv_antitone (len : ℕ) {c d : ℕ} (hc : 0 < c) (hcd : c ≤ d) :
    (len + d - 1) / d ≤ (len + c - 1) / c := by
  have hd : 0 < d := lt_of_lt_of_le hc hcd
  rcases Nat.eq_zero_or_pos len with rfl | hlen
  · rw [Nat.div_eq_of_lt (by omega), Nat.div_eq_of_lt (by omega)]
  · have hq : len ≤ c * ((len + c - 1) / c) := by
      have h2 := Nat.div_add_mod (len + c - 1) c
      have h3 : (len + c - 1) % c < c := Nat.mod_lt _ hc
      set A := c * ((len + c - 1) / c) with hA
      omega
    have h4 : c * ((len + c - 1) / c) ≤ d * ((len + c - 1) / c) :=
      Nat.mul_le_mul_right _ hcd
    have h5 := Nat.div_add_mod (len + d - 1) d
    have h6 : (len + d - 1) % d < d := Nat.mod_lt _ hd
    by_contra hcon
    push_neg at hcon
    have h7 : d * ((len + c - 1) / c + 1) ≤ d * ((len + d - 1) / d) :=
      Nat.mul_le_mul_left _ (by omega)
    set A := c * ((len + c - 1) / c) with hA
    set B := d * ((len + c - 1) / c) with hB
    set C := d * ((len + d - 1) / d) with hC
    set D := d * ((len + c - 1) / c + 1) with hD
    have hBD : D = B + d := by rw [hD, hB, Nat.mul_succ]
    omega

lemma estimateHeight_antitone (t : String) {w₁ w₂ : ℕ} (h1 : 0 < w₁) (h12 : w₁ ≤ w₂) :
    estimateHeight t w₂ ≤ estimateHeight t w₁ := by
  have h2 : 0 < w₂ := lt_of_lt_of_le h1 h12
  rw [estimateHeight, estimateHeight]
  simp only [Nat.pos_iff_ne_zero.mp h1, Nat.pos_iff_ne_zero.mp h2, if_neg]
  have hcpl : max 12 (w₁ / 14) ≤ max 12 (w₂ / 14) :=
    max_le_max le_rfl (Nat.div_le_div_right h12)
  have hc1 : 0 < max 12 (w₁ / 14) := lt_of_lt_of_le (by norm_num) (le_max_left _ _)
  have hlines := ceilDiv_antitone t.length hc1 hcpl
  have hmax : max 1 ((t.length + max 12 (w₂ / 14) - 1) / max 12 (w₂ / 14)) ≤
      max 1 ((t.length + max 12 (w₁ / 14) - 1) / max 12 (w₁ / 14)) :=
    max_le_max le_rfl hlines
  exact Nat.add_le_add_right (Nat.mul_le_mul_right _ hmax) _

lemma estimateHeight_halving (t : String) (w : ℕ) :
    estimateHeight t (2 * w) ≤ estimateHeight t w := by
  rcases Nat.eq_zero_or_pos w with rfl | hw
  · simp
  · exact estimateHeight_antitone t hw (by omega)

lemma computeWindow_fst (offs : List ℕ) (st vh : ℤ) :
    (computeWindow offs st vh).1 = findStartIndex offs st - overscan := rfl

lemma computeWindow_snd (offs : List ℕ) (st vh : ℤ) :
    (computeWindow offs st vh).2 =
      min offs.length
        (windowEnd offs (st + vh + (overscan * lineHeightPx : ℕ))
          (findStartIndex offs st - overscan) + overscan) := rfl

/-! ### Claim theorems -/

/-- C2: for every (non-decreasing) offset table and every `scrollTop` value,
including negative ones, `findStartIndex` returns the largest index `i` with
`offsets[i] <= scrollTop`, and returns `0` when the table is empty or every
offset exceeds `scrollTop`. -/
theorem C2_locate_correct (offs : List ℕ) (scroll : ℤ)
    (hsorted : List.Pairwise (· ≤ ·) offs) :
    ((∃ j, j < offs.length ∧ (offs.getD j 0 : ℤ) ≤ scroll) →
      (findStartIndex offs scroll < offs.length ∧
        (offs.getD (findStartIndex offs scroll) 0 : ℤ) ≤ scroll ∧
        ∀ j, j < offs.length → (offs.getD j 0 : ℤ) ≤ scroll →
          j ≤ findStartIndex offs scroll)) ∧
    ((¬ ∃ j, j < offs.length ∧ (offs.getD j 0 : ℤ) ≤ scroll) →
      findStartIndex offs scroll = 0) := by
  have hspec := findStartIndex_spec offs scroll (pairwise_getD_mono offs hsorted)
  constructor
  · rintro ⟨j, hj, hle⟩
    obtain ⟨h1, h2, h3⟩ := hspec.1 j hj hle
    exact ⟨h3, h1, fun k hk hkle => (hspec.1 k hk hkle).2.1⟩
  · intro hnone
    rcases hspec.2 with h0 | ⟨hlt, hle⟩
    · exact h0
    · exact absurd ⟨findStartIndex offs scroll, hlt, hle⟩ hnone

/-- Witness for C2 on the concrete table `[0, 10, 20]` at `scrollTop = 15`. -/
theorem C2_locate_correct_witness :
    List.Pairwise (· ≤ ·) [0, 10, 20] ∧
    (((∃ j, j < [0, 10, 20].length ∧ (([0, 10, 20] : List ℕ).getD j 0 : ℤ) ≤ 15) →
      (findStartIndex [0, 10, 20] 15 < [0, 10, 20].length ∧
        (([0, 10, 20] : List ℕ).getD (findStartIndex [0, 10, 20] 15) 0 : ℤ) ≤ 15 ∧
        ∀ j, j < [0, 10, 20].length → (([0, 10, 20] : List ℕ).getD j 0 : ℤ) ≤ 15 →
          j ≤ findStartIndex [0, 10, 20] 15)) ∧
    ((¬ ∃ j, j < [0, 10, 20].length ∧ (([0, 10, 20] : List ℕ).getD j 0 : ℤ) ≤ 15) →
      findStartIndex [0, 10, 20] 15 = 0)) :=
  ⟨by decide, C2_locate_correct [0, 10, 20] 15 (by decide)⟩

/-- C3: whenever the offset table is built (virtualized mode, hence a
non-empty paragraph list), it satisfies `offsets[0] = 0`,
`offsets[i+1] = offsets[i] + heights[i]`, and is non-decreasing. -/
theorem C3_offset_invariant (ps : List String) (w i j k : ℕ)
    (hv : useVirtualization ps w = true)
    (hi : i + 1 < (offsets ps w).length)
    (hjk : j ≤ k) (hk : k < (offsets ps w).length) :
    (offsets ps w).getD 0 0 = 0 ∧
    (offsets ps w).getD (i + 1) 0 =
      (offsets ps w).getD i 0 + (heights ps w).getD i 0 ∧
    (offsets ps w).getD j 0 ≤ (offsets ps w).getD k 0 := by
  have hoff := offsets_eq_buildOffsets ps w hv
  rw [hoff] at hi hk ⊢
  rw [buildOffsets_length] at hi hk
  refine ⟨buildOffsets_head _ (by omega), buildOffsets_succ _ i hi, ?_⟩
  exact buildOffsets_mono _ hjk hk

/-- Witness for C3 on 120 one-character paragraphs at width 900. -/
theorem C3_offset_invariant_witness :
    useVirtualization (List.replicate 120 "x") 900 = true ∧
    0 + 1 < (offsets (List.replicate 120 "x") 900).length ∧
    (1 : ℕ) ≤ 2 ∧ 2 < (offsets (List.replicate 120 "x") 900).length ∧
    ((offsets (List.replicate 120 "x") 900).getD 0 0 = 0 ∧
      (offsets (List.replicate 120 "x") 900).getD (0 + 1) 0 =
        (offsets (List.replicate 120 "x") 900).getD 0 0 +
          (heights (List.replicate 120 "x") 900).getD 0 0 ∧
      (offsets (List.replicate 120 "x") 900).getD 1 0 ≤
        (offsets (List.replicate 120 "x") 900).getD 2 0) :=
  ⟨by decide, by decide, by decide, by decide,
    C3_offset_invariant (List.replicate 120 "x") 900 0 1 2
      (by decide) (by decide) (by decide) (by decide)⟩

/-- C4 (counterexample): at viewport width `0` the code substitutes `640`
before dividing, so the claimed formula (which would use
`charsPerLine = max(12, floor(0 / 14)) = 12`) gives `72` for a 13-character
paragraph while the code gives `44`. -/
theorem C4_formula_cex :
    estimateHeight ("aaaaaaaaaaaaa") 0 = 44 ∧
    specHeightFormula (String.length ("aaaaaaaaaaaaa")) 0 = 72 ∧
    estimateHeight ("aaaaaaaaaaaaa") 0 ≠
      specHeightFormula (String.length ("aaaaaaaaaaaaa")) 0 := by
  refine ⟨by decide, by decide, by decide⟩

/-- C4 (amended): for every text and viewport width, `estimateHeight` equals
the spec's formula applied to the text length and the *effective* width,
which is `640` when the reported width is `0` and the reported width
otherwise; in particular the result is deterministic in
`(text.length, width)`. -/
theorem C4_height_formula (t : String) (w : ℕ) :
    estimateHeight t w = specHeightFormula t.length (if w = 0 then 640 else w) := by
  by_cases h : w = 0 <;> simp [estimateHeight, specHeightFormula, h]

/-- C6: windowed rendering is active exactly when the paragraph count is at
least `MIN_VIRTUAL_PARAGRAPHS = 120` and the width is at least
`MIN_VIRTUAL_WIDTH = 900`; below either threshold the full range renders
directly, and the mode depends only on `(paragraphCount, width)`. -/
theorem C6_mode_threshold (ps qs : List String) (w : ℕ) (st vh : ℤ)
    (hlen : ps.length = qs.length) :
    (useVirtualization ps w = true ↔ (120 ≤ ps.length ∧ 900 ≤ w)) ∧
    useVirtualization ps w = useVirtualization qs w ∧
    (useVirtualization ps w = false → visibleRange ps w st vh = (0, ps.length)) := by
  refine ⟨?_, ?_, ?_⟩
  · simp [useVirtualization, MIN_VIRTUAL_PARAGRAPHS, MIN_VIRTUAL_WIDTH]
  · simp [useVirtualization, hlen]
  · intro h
    simp [visibleRange, h]

/-- Witness for C6 with two distinct single-paragraph lists at width 0. -/
theorem C6_mode_threshold_witness :
    (["a"] : List String).length = (["b"] : List String).length ∧
    ((useVirtualization ["a"] 0 = true ↔ (120 ≤ (["a"] : List String).length ∧ 900 ≤ 0)) ∧
      useVirtualization ["a"] 0 = useVirtualization ["b"] 0 ∧
      (useVirtualization ["a"] 0 = false →
        visibleRange ["a"] 0 0 0 = (0, (["a"] : List String).length))) :=
  ⟨by decide, C6_mode_threshold ["a"] ["b"] 0 0 0 (by decide)⟩

/-- C8: for an empty paragraph sequence the window is `(0, 0)` and the total
height is `0`, for every width, scroll position and viewport height. -/
theorem C8_empty_sequence (w : ℕ) (st vh : ℤ) :
    visibleRange [] w st vh = (0, 0) ∧ totalHeight [] w = 0 := by
  constructor
  · simp [visibleRange, useVirtualization, MIN_VIRTUAL_PARAGRAPHS]
  · simp [totalHeight, useVirtualization, MIN_VIRTUAL_PARAGRAPHS]

/-- C9 (counterexample): with zero viewport dimensions and a single
paragraph the computed range is `(0, 1)`, the full list — not an empty
index range as claimed. -/
theorem C9_zero_viewport_cex :
    visibleRange ["a"] 0 0 0 = (0, 1) ∧ (1 : ℕ) ≠ 0 := by
  refine ⟨by decide, by decide⟩

/-- C9 (amended): when the viewport dimensions are zero (element not yet
laid out), the virtualized window computation is bypassed: the component
falls back to fixed mode and renders the full range `(0, length)`, with no
division by zero and no negative index (the bounds `0 ≤ start ≤ end ≤
length` hold). -/
theorem C9_zero_viewport (ps : List String) (st vh : ℤ) :
    visibleRange ps 0 st vh = (0, ps.length) := by
  simp [visibleRange, useVirtualization, MIN_VIRTUAL_WIDTH]

/-- C10: every height estimate is at least
`lineHeightPx + paragraphGap = 44` pixels, hence every entry of the height
table is strictly positive and the built offset table is strictly
increasing. -/
theorem C10_positive_heights (t : String) (w : ℕ) (ps : List String) (j i : ℕ)
    (hj : j < ps.length) (hi : i + 1 < ps.length) :
    lineHeightPx + paragraphGap ≤ estimateHeight t w ∧
    0 < (heights ps w).getD j 0 ∧
    (buildOffsets (heights ps w)).getD i 0 <
      (buildOffsets (heights ps w)).getD (i + 1) 0 := by
  have hbase : ∀ s : String, lineHeightPx + paragraphGap ≤ estimateHeight s w := by
    intro s
    rw [estimateHeight]
    have h1 : 1 ≤ max 1 ((s.length + max 12 ((if w = 0 then 640 else w) / 14) - 1) /
        max 12 ((if w = 0 then 640 else w) / 14)) := le_max_left _ _
    have : lineHeightPx ≤ max 1 ((s.length + max 12 ((if w = 0 then 640 else w) / 14) - 1) /
        max 12 ((if w = 0 then 640 else w) / 14)) * lineHeightPx := by
      calc lineHeightPx = 1 * lineHeightPx := (one_mul _).symm
        _ ≤ _ := Nat.mul_le_mul_right _ h1
    omega
  have hlh : (heights ps w).length = ps.length := heights_length ps w
  have hget : ∀ m : ℕ, m < ps.length → 0 < (heights ps w).getD m 0 := by
    intro m hm
    have hm' : m < (heights ps w).length := by omega
    rw [List.getD_eq_getElem _ 0 hm']
    simp only [heights, List.getElem_map]
    refine lt_of_lt_of_le ?_ (hbase _)
    norm_num [lineHeightPx, paragraphGap]
  refine ⟨hbase t, hget j hj, ?_⟩
  rw [buildOffsets_succ (heights ps w) i (by omega)]
  have := hget i (by omega)
  omega

/-- Witness for C10 on a two-paragraph list at width 0. -/
theorem C10_positive_heights_witness :
    (1 : ℕ) < (["a", "bb"] : List String).length ∧
    (0 : ℕ) + 1 < (["a", "bb"] : List String).length ∧
    (lineHeightPx + paragraphGap ≤ estimateHeight ("x") 0 ∧
      0 < (heights ["a", "bb"] 0).getD 1 0 ∧
      (buildOffsets (heights ["a", "bb"] 0)).getD 0 0 <
        (buildOffsets (heights ["a", "bb"] 0)).getD (0 + 1) 0) :=
  ⟨by decide, by decide,
    C10_positive_heights ("x") 0 ["a", "bb"] 1 0 (by decide) (by decide)⟩

/-- C7: for every input — any width, any (possibly negative or huge) scroll
position, any viewport height, any paragraph count — the computed window
satisfies `0 ≤ start ≤ end ≤ paragraphCount`. -/
theorem C7_window_clamped (ps : List String) (w : ℕ) (st vh : ℤ) :
    0 ≤ (visibleRange ps w st vh).1 ∧
    (visibleRange ps w st vh).1 ≤ (visibleRange ps w st vh).2 ∧
    (visibleRange ps w st vh).2 ≤ ps.length := by
  by_cases hv : useVirtualization ps w = false
  · simp [visibleRange, hv]
  · have hv' : useVirtualization ps w = true := by
      revert hv
      cases useVirtualization ps w <;> simp
    have hvi := hv'
    simp only [useVirtualization, Bool.and_eq_true, decide_eq_true_eq,
      MIN_VIRTUAL_PARAGRAPHS, MIN_VIRTUAL_WIDTH] at hvi
    have hoff := offsets_eq_buildOffsets ps w hv'
    have hlen : (offsets ps w).length = ps.length := by
      rw [hoff, buildOffsets_length, heights_length]
    have hne : offsets ps w ≠ [] := by
      intro hnil
      rw [hnil] at hlen
      simp at hlen
      omega
    have hrawlt : findStartIndex (offsets ps w) st < (offsets ps w).length :=
      findStartIndex_lt_length _ st hne
    have hvr : visibleRange ps w st vh = computeWindow (offsets ps w) st vh := by
      rw [visibleRange, if_neg hv]
    rw [hvr, computeWindow_fst, computeWindow_snd]
    have hge := windowEnd_ge (offsets ps w) (st + vh + (overscan * lineHeightPx : ℕ))
      (findStartIndex (offsets ps w) st - overscan)
    refine ⟨Nat.zero_le _, ?_, ?_⟩
    · omega
    · omega

/-- C5 (counterexample): halving the width from 1200px to 600px on 120
unchanged paragraphs drops the width below `MIN_VIRTUAL_WIDTH = 900`, so the
computed `totalHeight` falls back to `0` and strictly *decreases*. -/
theorem C5_totalHeight_cex :
    totalHeight (List.replicate 120 "") 600 <
      totalHeight (List.replicate 120 "") 1200 := by
  decide

/-- C5 (amended): when the viewport width halves from `2*w` to `w` on an
unchanged paragraph sequence, every per-paragraph height estimate increases
or stays equal; and provided virtualization is still active at the smaller
width `w`, the computed `totalHeight` increases or stays equal (when the
smaller width falls below the virtualization threshold, `totalHeight` is
reported as `0` instead). -/
theorem C5_halved_width (ps : List String) (w i : ℕ) :
    (heights ps (2 * w)).getD i 0 ≤ (heights ps w).getD i 0 ∧
    (useVirtualization ps w = true →
      totalHeight ps (2 * w) ≤ totalHeight ps w) := by
  constructor
  · by_cases hi : i < ps.length
    · have h1 : i < (heights ps (2 * w)).length := by
        rw [heights_length]
        exact hi
      have h2 : i < (heights ps w).length := by
        rw [heights_length]
        exact hi
      rw [List.getD_eq_getElem _ 0 h1, List.getD_eq_getElem _ 0 h2]
      simp only [heights, List.getElem_map]
      exact estimateHeight_halving _ w
    · rw [List.getD_eq_default _ 0 (by rw [heights_length]; omega)]
      exact Nat.zero_le _
  · intro hv
    have hv2 : useVirtualization ps (2 * w) = true := by
      simp only [useVirtualization, Bool.and_eq_true, decide_eq_true_eq,
        MIN_VIRTUAL_PARAGRAPHS, MIN_VIRTUAL_WIDTH] at hv ⊢
      omega
    rw [totalHeight_eq_sum ps w hv, totalHeight_eq_sum ps (2 * w) hv2]
    simp only [heights]
    apply List.sum_le_sum
    intro x hx
    exact estimateHeight_halving x w

/-- Witness for C5 (amended) on 120 one-character paragraphs at width 900,
where virtualization is active so the inner implication fires. -/
theorem C5_halved_width_witness :
    (heights (List.replicate 120 "x") (2 * 900)).getD 0 0 ≤
      (heights (List.replicate 120 "x") 900).getD 0 0 ∧
    totalHeight (List.replicate 120 "x") (2 * 900) ≤
      totalHeight (List.replicate 120 "x") 900 :=
  ⟨(C5_halved_width (List.replicate 120 "x") 900 0).1,
    (C5_halved_width (List.replicate 120 "x") 900 0).2 (by decide)⟩

/-- C1: for every height table (with its derived offset table), scroll
position and viewport height, the window computed by the virtualized branch
contains every paragraph index whose pixel range
`[offsets[i], offsets[i] + heights[i])` meets
`[scrollTop, scrollTop + viewportHeight]`; it reaches at least `overscan`
indices past any such visible index whenever that many exist, and it starts
at least `overscan` indices below the binary-search anchor whenever that
many exist, those indices lying inside the window. -/
theorem C1_window_containment (hs : List ℕ) (st vh : ℤ) (i : ℕ)
    (hi : i < hs.length)
    (hvis1 : ((buildOffsets hs).getD i 0 : ℤ) ≤ st + vh)
    (hvis2 : st < ((buildOffsets hs).getD i 0 : ℤ) + (hs.getD i 0 : ℤ)) :
    ((computeWindow (buildOffsets hs) st vh).1 ≤ i ∧
      i < (computeWindow (buildOffsets hs) st vh).2) ∧
    (i + 1 + overscan ≤ hs.length →
      i + 1 + overscan ≤ (computeWindow (buildOffsets hs) st vh).2) ∧
    (overscan ≤ findStartIndex (buildOffsets hs) st →
      ((computeWindow (buildOffsets hs) st vh).1 + overscan ≤
          findStartIndex (buildOffsets hs) st ∧
        findStartIndex (buildOffsets hs) st ≤
          (computeWindow (buildOffsets hs) st vh).2)) := by
  have ho : overscan = 6 := rfl
  rw [computeWindow_fst, computeWindow_snd]
  set offs := buildOffsets hs with hoffs
  have hlen : offs.length = hs.length := buildOffsets_length hs
  have hmono : ∀ a b : ℕ, a ≤ b → b < offs.length →
      offs.getD a 0 ≤ offs.getD b 0 := buildOffsets_monoD hs
  have hspec := findStartIndex_spec offs st hmono
  set raw := findStartIndex offs st with hraw
  have hstart_le : raw ≤ i + overscan := by
    by_contra hcon
    push_neg at hcon
    rcases hspec.2 with h0 | ⟨hrlt, hrle⟩
    · omega
    · have hi1 : i + 1 ≤ raw := by omega
      have hi1len : i + 1 < hs.length := by omega
      have hmle : offs.getD (i + 1) 0 ≤ offs.getD raw 0 :=
        hmono (i + 1) raw hi1 (by omega)
      have hsucc : offs.getD (i + 1) 0 = offs.getD i 0 + hs.getD i 0 :=
        buildOffsets_succ hs i hi1len
      have hc1 : (offs.getD (i + 1) 0 : ℤ) ≤ (offs.getD raw 0 : ℤ) := by
        exact_mod_cast hmle
      omega
  have hwge := windowEnd_ge offs (st + vh + (overscan * lineHeightPx : ℕ))
    (raw - overscan)
  have hwle := windowEnd_le_length offs (st + vh + (overscan * lineHeightPx : ℕ))
    (raw - overscan) (by omega)
  have h168 : (0 : ℤ) < ((overscan * lineHeightPx : ℕ) : ℤ) := by decide
  have hwgt : i < windowEnd offs (st + vh + (overscan * lineHeightPx : ℕ))
      (raw - overscan) := by
    refine windowEnd_gt offs _ hmono (raw - overscan) i (by omega) (by omega) ?_
    omega
  refine ⟨⟨by omega, by omega⟩, ?_, ?_⟩
  · intro hroom
    omega
  · intro h6
    rcases hspec.2 with h0 | ⟨hrlt, _⟩ <;> constructor <;> omega

/-- Witness for C1: 160 paragraphs of height 72, scrolled to 3000 with a
400px viewport; index 45 (offset 3240) is visible. -/
theorem C1_window_containment_witness :
    45 < (List.replicate 160 (72 : ℕ)).length ∧
    (((buildOffsets (List.replicate 160 (72 : ℕ))).getD 45 0 : ℤ) ≤ 3000 + 400) ∧
    (3000 : ℤ) < ((buildOffsets (List.replicate 160 (72 : ℕ))).getD 45 0 : ℤ) +
      ((List.replicate 160 (72 : ℕ)).getD 45 0 : ℤ) ∧
    (((computeWindow (buildOffsets (List.replicate 160 (72 : ℕ))) 3000 400).1 ≤ 45 ∧
        45 < (computeWindow (buildOffsets (List.replicate 160 (72 : ℕ))) 3000 400).2) ∧
      (45 + 1 + overscan ≤ (List.replicate 160 (72 : ℕ)).length →
        45 + 1 + overscan ≤
          (computeWindow (buildOffsets (List.replicate 160 (72 : ℕ))) 3000 400).2) ∧
      (overscan ≤ findStartIndex (buildOffsets (List.replicate 160 (72 : ℕ))) 3000 →
        ((computeWindow (buildOffsets (List.replicate 160 (72 : ℕ))) 3000 400).1 +
            overscan ≤
            findStartIndex (buildOffsets (List.replicate 160 (72 : ℕ))) 3000 ∧
          findStartIndex (buildOffsets (List.replicate 160 (72 : ℕ))) 3000 ≤
            (computeWindow (buildOffsets (List.replicate 160 (72 : ℕ))) 3000 400).2))) :=
  ⟨by decide, by decide, by decide,
    C1_window_containment (List.replicate 160 (72 : ℕ)) 3000 400 45
      (by decide) (by decide) (by decide)⟩

end VirtualText
